import Mathlib

/-! Shallow embedding of the chess-tournament model (`src/model.py`) of the
repository `devogs/ocr-4`, together with proofs settling the frozen claims
about its specification.

Modelling conventions:
* Python `float`/numeric scores are modelled as `ℚ` (the only non-integer
  values that arise are halves from draws).
* `datetime.now()` timestamps and `random` choices are nondeterministic
  inputs; the corresponding Lean functions take them as explicit parameters
  (a timestamp string, the shuffled candidate list, the white-side choices).
* Python `None`-able string fields become `Option String`; Python truthiness
  of such a field (`if self.end_date:`) is `strTruthy` below (a `Some ""`
  would be falsy in Python).
* Mutation becomes explicit state passing: a method that mutates `self` and
  returns `r` becomes a Lean function returning `r × Tournament`.
* Python exceptions (`raise ValueError`, `TypeError` from bad `**kwargs`)
  become `Except String`.
-/

/-- Python truthiness of an optional string (`None` and `""` are falsy). -/
def strTruthy : Option String → Bool
  | none => false
  | some s => s ≠ ""

/-- The participant record, `Player.__init__` (model.py lines 34-76).
`score` is the cumulative score; Python numbers are modelled as `ℚ`. -/
structure Player where
  firstname : String
  lastname : String
  birthdate : String
  national_id : String
  score : ℚ
deriving Repr, DecidableEq

/-- A match: `players` is the Python list of `[player, points]` pairs
(always length 2 for matches built by `Match.__init__`), `white_player`
the random side index, `is_finished` the completion flag
(model.py lines 79-102). -/
structure Match where
  players : List (Player × ℚ)
  white_player : Nat
  is_finished : Bool
deriving Repr, DecidableEq

instance : Inhabited Player := ⟨⟨"", "", "", "", 0⟩⟩

/-- Constructor `Match.__init__(player1, player2)` with the random white choice `w`
passed explicitly (model.py lines 93-102). -/
def Match.mkNew (player1 player2 : Player) (w : Nat) : Match :=
  { players := [(player1, 0), (player2, 0)], white_player := w, is_finished := false }

/-- Result entry `Match.set_result(winner_idx)` (model.py lines 104-116): winner gets 1,
loser 0; on `None` both get 0.5; the match is marked finished.  Indexing is
by `Fin 2` mirroring the Python indices 0/1. -/
def Match.set_result (m : Match) (winner_idx : Option (Fin 2)) : Match :=
  match winner_idx with
  | some i =>
      let ps := m.players.set i.val ((m.players.getD i.val default).fst, 1)
      let ps := ps.set (1 - i.val) ((ps.getD (1 - i.val) default).fst, 0)
      { m with players := ps, is_finished := true }
  | none =>
      let ps := m.players.set 0 ((m.players.getD 0 default).fst, (1 : ℚ)/2)
      let ps := ps.set 1 ((ps.getD 1 default).fst, (1 : ℚ)/2)
      { m with players := ps, is_finished := true }

/-- A round (model.py lines 166-190): matches plus open/close timestamps.
The Python attribute `matches` is a reserved word in Lean, hence
`matchList`. -/
structure Round where
  name : String
  matchList : List Match
  start_time : String
  end_time : Option String
deriving Repr, DecidableEq

/-- Constructor `Round.__init__(name)` with the creation timestamp passed explicitly. -/
def Round.mkNew (name : String) (now : String) : Round :=
  { name := name, matchList := [], start_time := now, end_time := none }

/-- Method `Round.finish()` (model.py lines 192-194): stamps the end time. -/
def Round.finish (r : Round) (now : String) : Round :=
  { r with end_time := some now }

/-- Lexicographic strict order on character lists by code point, as Python
compares strings.  (Core's `String.ltb` is defined by well-founded
recursion and does not reduce in the kernel, so the comparison is spelled
out on `List Char`.) -/
def charListLt : List Char → List Char → Bool
  | [], [] => false
  | [], _ :: _ => true
  | _ :: _, [] => false
  | c :: cs, d :: ds =>
      if c.toNat < d.toNat then true
      else if d.toNat < c.toNat then false
      else charListLt cs ds

/-- Python's `a < b` on strings: code-point lexicographic comparison. -/
def strLtb (a b : String) : Bool := charListLt a.data b.data

/-- The key `tuple(sorted([a, b]))` on two id strings: the unordered-pair key used
throughout `generate_pairs`. -/
def sortKey (a b : String) : String × String :=
  if strLtb b a then (b, a) else (a, b)

/-- The tournament record (model.py lines 228-270). -/
structure Tournament where
  name : String
  location : String
  start_date : String
  end_date : Option String
  number_of_rounds : Nat
  current_round : Nat
  rounds : List Round
  players : List Player
  description : String
  all_possible_pairs : List (String × String)
deriving Repr, DecidableEq

/-- Constructor `Tournament.__init__` (model.py lines 252-270): fresh tournament with
4 rounds, empty rounds/roster. -/
def Tournament.mkNew (name location start_date description : String) : Tournament :=
  { name := name, location := location, start_date := start_date,
    end_date := none, number_of_rounds := 4, current_round := 0,
    rounds := [], players := [], description := description,
    all_possible_pairs := [] }

/-- The nested loop of `add_players_from_database` building
`all_possible_pairs`: for each index `i`, keys of `players[i]` with every
later `players[j]` (model.py lines 302-307). -/
def pairsFrom : List Player → List (String × String)
  | [] => []
  | p :: rest =>
      rest.map (fun q => sortKey p.national_id q.national_id) ++ pairsFrom rest

/-- Method `Tournament.add_players_from_database(available_players)`
(model.py lines 290-307): copies the players by value and rebuilds
`all_possible_pairs` (left empty when fewer than 2 players). -/
def Tournament.add_players_from_database (t : Tournament)
    (available_players : List Player) : Tournament :=
  let ps := available_players
  { t with players := ps,
           all_possible_pairs := if 2 ≤ ps.length then pairsFrom ps else [] }

/-- Stable insertion step for `self.players.sort(key=lambda p: p.score,
reverse=True)` (model.py line 335): `p` goes in front of the first element
whose score is at most `p.score`, so among equal scores the earlier element
stays first, matching Python's stable descending sort. -/
def insertByScoreDesc (p : Player) : List Player → List Player
  | [] => [p]
  | q :: qs => if q.score ≤ p.score then p :: q :: qs else q :: insertByScoreDesc p qs

/-- Python's stable sort by descending score (model.py line 335). -/
def sortByScoreDesc (l : List Player) : List Player :=
  l.foldr insertByScoreDesc []

/-- The round-1 selection loop of `generate_pairs` (model.py lines 318-333):
walk the shuffled candidate list, stop once `cap = (len(players)+1)//2`
pairs are collected, resolve both ids in the roster, and take the pair when
its key was not already taken.  `used` models the Python set `used_pairs`
(only membership matters), `pairs` the accumulator. -/
def r1Loop (players : List Player) (cap : Nat) :
    List (String × String) → List (String × String) → List (Player × Player) →
    List (Player × Player)
  | [], _, pairs => pairs
  | (p1_id, p2_id) :: rest, used, pairs =>
    if cap ≤ pairs.length then pairs
    else
      match players.find? (fun p => p.national_id == p1_id),
            players.find? (fun p => p.national_id == p2_id) with
      | some p1, some p2 =>
          let pair_key := sortKey p1.national_id p2.national_id
          if pair_key ∈ used then r1Loop players cap rest used pairs
          else r1Loop players cap rest (pair_key :: used) (pairs ++ [(p1, p2)])
      | some _, none => r1Loop players cap rest used pairs
      | none, _ => r1Loop players cap rest used pairs

/-- The unordered id key of a match, `tuple(sorted([p1[0].national_id,
p2[0].national_id]))` (model.py lines 340-349).  In the embedding match
players are always `Player` values, so the `isinstance(..., dict)`
re-parsing branches of the source never fire.  Matches built by the model
always carry exactly two players; the `("", "")` default mirrors nothing in
Python (which would raise on unpacking) and is never reached in any claim. -/
def matchKey (m : Match) : String × String :=
  match m.players with
  | (p1, _) :: (p2, _) :: _ => sortKey p1.national_id p2.national_id
  | _ => ("", "")

/-- The `used_pairs` set of the rounds-2+ branch (model.py lines 337-350): keys of
every match of every prior round.  The Python value is a set; the embedding
keeps a list and uses only membership. -/
def usedPairsOf (rounds : List Round) : List (String × String) :=
  rounds.flatMap (fun r => r.matchList.map matchKey)

/-- The inner repair scan of the rounds-2+ branch (model.py lines 359-368):
`for j in range(i+2, len(players), 2)`, stopping when `j+1 >= len`, taking
the first `players[j]` whose key with the fixed `player1` is unused.  The
argument list is the tail of the sorted roster from index `i+2` on. -/
def findAlt (p1 : Player) (used : List (String × String)) : List Player → Option Player
  | a :: _ :: rest =>
      if sortKey p1.national_id a.national_id ∈ used then findAlt p1 used rest
      else some a
  | _ => none

/-- The outer pairing loop of the rounds-2+ branch (model.py lines 351-368):
`for i in range(0, len(players), 2)`, breaking when `i+1 >= len`; a used
sequential pair triggers the repair scan; `used_pairs` is never extended
here, exactly as in the source. -/
def r2Loop (used : List (String × String)) : List Player → List (Player × Player)
  | p1 :: p2 :: rest =>
      if sortKey p1.national_id p2.national_id ∈ used then
        match findAlt p1 used rest with
        | some alt => (p1, alt) :: r2Loop used rest
        | none => r2Loop used rest
      else (p1, p2) :: r2Loop used rest
  | _ => []

/-- The pairing engine `Tournament.generate_pairs` (model.py lines 309-369).  `shuffled` is the
result of `random.shuffle` on a copy of `all_possible_pairs`; theorems
quantify over it as a permutation of that field.  The rounds-2+ branch
sorts `self.players` in place, so the function also returns the updated
tournament. -/
def Tournament.generate_pairs (t : Tournament) (shuffled : List (String × String)) :
    List (Player × Player) × Tournament :=
  if t.players.length < 2 then ([], t)
  else if t.current_round = 0 then
    (r1Loop t.players ((t.players.length + 1) / 2) shuffled [] [], t)
  else
    let sorted := sortByScoreDesc t.players
    (r2Loop (usedPairsOf t.rounds) sorted, { t with players := sorted })

/-- Transition `Tournament.start_round` (model.py lines 371-390).  `whites k` is the
random white-side choice of the k-th created match, `now` the round's
creation timestamp.  Note the source runs `generate_pairs` (which may
re-sort the roster) before the empty-pairs failure exit. -/
def Tournament.start_round (t : Tournament) (shuffled : List (String × String))
    (whites : Nat → Nat) (now : String) : Bool × Tournament :=
  if t.number_of_rounds ≤ t.current_round then (false, t)
  else if strTruthy t.end_date then (false, t)
  else if (t.generate_pairs shuffled).1 = [] then (false, (t.generate_pairs shuffled).2)
  else
    (true,
      { (t.generate_pairs shuffled).2 with
        rounds := (t.generate_pairs shuffled).2.rounds ++
          [{ Round.mkNew ("Round " ++ toString (t.current_round + 1)) now with
             matchList := (t.generate_pairs shuffled).1.enum.map
               (fun kp => Match.mkNew kp.2.1 kp.2.2 (whites kp.1)) }],
        current_round := (t.generate_pairs shuffled).2.current_round + 1 })

/-- Replace the last element of a list, `self.rounds[-1]`-style. -/
def updateLast {α : Type} (f : α → α) : List α → List α
  | [] => []
  | [x] => [f x]
  | x :: y :: xs => x :: updateLast f (y :: xs)

/-- Transition `Tournament.finish_round` (model.py lines 392-404): fails when no round
exists or `current_round == 0` or the tournament is closed; otherwise
stamps the last round's end time (unconditionally, even if already
stamped) and reports success. -/
def Tournament.finish_round (t : Tournament) (now : String) : Bool × Tournament :=
  if t.rounds = [] ∨ t.current_round = 0 then (false, t)
  else if strTruthy t.end_date then (false, t)
  else (true, { t with rounds := updateLast (fun r => r.finish now) t.rounds })

/-- Transition `Tournament.end_tournament` (model.py lines 406-415): succeeds exactly
when the end date is unset (falsy) and `current_round >= number_of_rounds`,
stamping `end_date` with today's date. -/
def Tournament.end_tournament (t : Tournament) (today : String) : Bool × Tournament :=
  if strTruthy t.end_date = false ∧ t.number_of_rounds ≤ t.current_round then
    (true, { t with end_date := some today })
  else (false, t)

/-! Sample data used by concrete counterexamples and witnesses. -/

/-- A sample player with the given id and score. -/
def mkSampleP (n : String) (s : ℚ) : Player := ⟨n, n, "01-01-2000", n, s⟩

/-- Fresh 4-player tournament (round-1 branch). -/
def sampleT4 : Tournament :=
  (Tournament.mkNew "T" "L" "01-01-2025" "").add_players_from_database
    [mkSampleP "A" 0, mkSampleP "B" 0, mkSampleP "C" 0, mkSampleP "D" 0]

/-- Fresh 5-player tournament (round-1 branch, odd roster). -/
def sampleT5 : Tournament :=
  (Tournament.mkNew "T" "L" "01-01-2025" "").add_players_from_database
    [mkSampleP "A" 0, mkSampleP "B" 0, mkSampleP "C" 0, mkSampleP "D" 0, mkSampleP "E" 0]

/-- Two-player tournament after one round in which the two already met;
the roster is deliberately not in descending-score order. -/
def sampleT2 : Tournament :=
  { Tournament.mkNew "T" "L" "01-01-2025" "" with
    players := [mkSampleP "A" 0, mkSampleP "B" 1],
    rounds := [{ name := "Round 1",
                 matchList := [Match.mkNew (mkSampleP "A" 0) (mkSampleP "B" 1) 0],
                 start_time := "01-01-2025 10:00:00", end_time := none }],
    current_round := 1 }

/-! Elementary lemmas about the embedded operations. -/

theorem insertByScoreDesc_perm (p : Player) (l : List Player) :
    (insertByScoreDesc p l).Perm (p :: l) := by
  induction l with
  | nil => exact List.Perm.refl _
  | cons q qs ih =>
      by_cases h : q.score ≤ p.score
      · simp [insertByScoreDesc, h]
      · simp only [insertByScoreDesc, if_neg h]
        exact (ih.cons q).trans (List.Perm.swap p q qs)

theorem sortByScoreDesc_perm (l : List Player) :
    (sortByScoreDesc l).Perm l := by
  induction l with
  | nil => exact List.Perm.refl _
  | cons x xs ih =>
      exact (insertByScoreDesc_perm x (sortByScoreDesc xs)).trans (ih.cons x)

theorem updateLast_length {α : Type} (f : α → α) (l : List α) :
    (updateLast f l).length = l.length := by
  induction l with
  | nil => rfl
  | cons x xs ih =>
      cases xs with
      | nil => rfl
      | cons y ys => simpa [updateLast] using ih

theorem updateLast_getLast? {α : Type} (f : α → α) (l : List α) :
    (updateLast f l).getLast? = l.getLast?.map f := by
  induction l with
  | nil => rfl
  | cons x xs ih =>
      cases xs with
      | nil => rfl
      | cons y ys =>
          cases hul : updateLast f (y :: ys) with
          | nil =>
              have hlen := updateLast_length f (y :: ys)
              rw [hul] at hlen
              simp at hlen
          | cons z zs =>
              rw [hul] at ih
              simp only [updateLast, hul]
              rw [List.getLast?_cons_cons, ih, List.getLast?_cons_cons]

/-- The state returned by `generate_pairs` differs from the input only in
the (possibly re-sorted) roster. -/
theorem generate_pairs_snd (t : Tournament) (s : List (String × String)) :
    (t.generate_pairs s).2 = t ∨
    (t.generate_pairs s).2 = { t with players := sortByScoreDesc t.players } := by
  unfold Tournament.generate_pairs
  split
  · exact Or.inl rfl
  · split
    · exact Or.inl rfl
    · exact Or.inr rfl

theorem generate_pairs_snd_players_perm (t : Tournament) (s : List (String × String)) :
    ((t.generate_pairs s).2).players.Perm t.players := by
  rcases generate_pairs_snd t s with h | h <;> rw [h]
  exact sortByScoreDesc_perm t.players

/-! The tournament state machine as a transition relation. -/

/-- One externally driven transition of the tournament state machine:
a `start_round`, `finish_round` or `end_tournament` call (with its
nondeterministic inputs), keeping the post-state. -/
inductive StepT : Tournament → Tournament → Prop
  | start (t : Tournament) (shuffled : List (String × String))
      (whites : Nat → Nat) (now : String) :
      StepT t (t.start_round shuffled whites now).2
  | finish (t : Tournament) (now : String) :
      StepT t (t.finish_round now).2
  | close (t : Tournament) (today : String) :
      StepT t (t.end_tournament today).2

/-- The round-count invariant of the spec: `completed_rounds` counts the
rounds and never exceeds `total_rounds`. -/
def roundCountOk (t : Tournament) : Prop :=
  t.rounds.length = t.current_round ∧ t.current_round ≤ t.number_of_rounds

theorem stepT_roundCountOk {t t' : Tournament} (h : StepT t t')
    (hok : roundCountOk t) : roundCountOk t' := by
  cases h with
  | start shuffled whites now =>
      unfold Tournament.start_round
      split
      · exact hok
      split
      · exact hok
      split
      · rcases generate_pairs_snd t shuffled with hg | hg <;> rw [hg] <;> exact hok
      · rename_i hguard h2 h3
        rcases generate_pairs_snd t shuffled with hg | hg <;> rw [hg] <;>
          exact ⟨by simp [hok.1], by have := hok.2; simp; omega⟩
  | finish now =>
      unfold Tournament.finish_round
      split
      · exact hok
      split
      · exact hok
      · exact ⟨by simpa [updateLast_length] using hok.1, hok.2⟩
  | close today =>
      unfold Tournament.end_tournament
      split
      · exact ⟨hok.1, hok.2⟩
      · exact hok

theorem reachable_roundCountOk {t0 t : Tournament}
    (h : Relation.ReflTransGen StepT t0 t) (h0 : roundCountOk t0) :
    roundCountOk t := by
  induction h with
  | refl => exact h0
  | tail _ hs ih => exact stepT_roundCountOk hs ih

/-- C2: along every sequence of state-machine calls starting from a
freshly created tournament (with its creation-time roster), the completed
round counter `current_round` equals the number of stored rounds and never
exceeds `number_of_rounds`. -/
theorem round_count_invariant_reachable (nm loc sd desc : String)
    (ps : List Player) (t : Tournament)
    (h : Relation.ReflTransGen StepT
      ((Tournament.mkNew nm loc sd desc).add_players_from_database ps) t) :
    t.rounds.length = t.current_round ∧ t.current_round ≤ t.number_of_rounds :=
  reachable_roundCountOk h ⟨rfl, Nat.zero_le _⟩

/-- Witness for C2 at the fresh 4-player tournament (empty call sequence). -/
theorem round_count_invariant_reachable_witness :
    sampleT4.rounds.length = sampleT4.current_round ∧
    sampleT4.current_round ≤ sampleT4.number_of_rounds :=
  round_count_invariant_reachable "T" "L" "01-01-2025" ""
    [mkSampleP "A" 0, mkSampleP "B" 0, mkSampleP "C" 0, mkSampleP "D" 0]
    sampleT4 Relation.ReflTransGen.refl

/-- C7: on a two-player match, `set_result` realises exactly the three
outcomes — winner index 0 gives points (1, 0), winner index 1 gives (0, 1),
`None` gives (1/2, 1/2) — and marks the match finished in all three cases. -/
theorem set_result_three_outcomes (m : Match) (p q : Player) (s u : ℚ)
    (h : m.players = [(p, s), (q, u)]) :
    (m.set_result (some 0)).players = [(p, 1), (q, 0)]
  ∧ (m.set_result (some 0)).is_finished = true
  ∧ (m.set_result (some 1)).players = [(p, 0), (q, 1)]
  ∧ (m.set_result (some 1)).is_finished = true
  ∧ (m.set_result none).players = [(p, (1 : ℚ)/2), (q, (1 : ℚ)/2)]
  ∧ (m.set_result none).is_finished = true := by
  cases m with
  | mk players wp fin =>
      cases h
      exact ⟨rfl, rfl, rfl, rfl, rfl, rfl⟩

/-- Witness for C7 on a concrete fresh match. -/
theorem set_result_three_outcomes_witness :
    ((Match.mkNew (mkSampleP "A" 0) (mkSampleP "B" 0) 0).set_result (some 0)).players
        = [(mkSampleP "A" 0, 1), (mkSampleP "B" 0, 0)]
  ∧ ((Match.mkNew (mkSampleP "A" 0) (mkSampleP "B" 0) 0).set_result (some 0)).is_finished = true
  ∧ ((Match.mkNew (mkSampleP "A" 0) (mkSampleP "B" 0) 0).set_result (some 1)).players
        = [(mkSampleP "A" 0, 0), (mkSampleP "B" 0, 1)]
  ∧ ((Match.mkNew (mkSampleP "A" 0) (mkSampleP "B" 0) 0).set_result (some 1)).is_finished = true
  ∧ ((Match.mkNew (mkSampleP "A" 0) (mkSampleP "B" 0) 0).set_result none).players
        = [(mkSampleP "A" 0, (1 : ℚ)/2), (mkSampleP "B" 0, (1 : ℚ)/2)]
  ∧ ((Match.mkNew (mkSampleP "A" 0) (mkSampleP "B" 0) 0).set_result none).is_finished = true :=
  set_result_three_outcomes _ (mkSampleP "A" 0) (mkSampleP "B" 0) 0 0 rfl

/-- C3: over states reachable from a freshly created tournament,
`end_tournament` succeeds exactly when the completed-round counter has
reached `number_of_rounds` and the tournament is not yet closed; success
stamps `end_date` with today's date, failure leaves the state untouched,
and after a successful closure every further call fails and changes
nothing. -/
theorem end_tournament_closure_guard (nm loc sd desc : String)
    (ps : List Player) (t : Tournament)
    (h : Relation.ReflTransGen StepT
      ((Tournament.mkNew nm loc sd desc).add_players_from_database ps) t)
    (today today2 : String) (htoday : today ≠ "") :
    ((t.end_tournament today).1 = true ↔
        t.current_round = t.number_of_rounds ∧ strTruthy t.end_date = false)
  ∧ ((t.end_tournament today).1 = true →
        (t.end_tournament today).2.end_date = some today)
  ∧ ((t.end_tournament today).1 = false → (t.end_tournament today).2 = t)
  ∧ ((t.end_tournament today).1 = true →
        ((t.end_tournament today).2.end_tournament today2).1 = false ∧
        ((t.end_tournament today).2.end_tournament today2).2
          = (t.end_tournament today).2) := by
  have hinv := (reachable_roundCountOk h ⟨rfl, Nat.zero_le _⟩).2
  by_cases hc : strTruthy t.end_date = false ∧ t.number_of_rounds ≤ t.current_round
  · unfold Tournament.end_tournament
    rw [if_pos hc]
    have hcur : t.current_round = t.number_of_rounds := Nat.le_antisymm hinv hc.2
    refine ⟨by simp [hcur, hc.1], fun _ => rfl, by simp, fun _ => ?_⟩
    have : strTruthy (some today) = true := by simp [strTruthy, htoday]
    rw [if_neg]
    · exact ⟨rfl, rfl⟩
    · intro hcontra
      rw [this] at hcontra
      exact absurd hcontra.1 (by simp)
  · unfold Tournament.end_tournament
    rw [if_neg hc]
    refine ⟨?_, by simp, fun _ => rfl, by simp⟩
    constructor
    · intro hcontra; exact absurd hcontra (by simp)
    · rintro ⟨hcur, hopen⟩
      exact absurd ⟨hopen, hcur.ge⟩ hc

/-- Witness for C3 at the fresh 4-player tournament. -/
theorem end_tournament_closure_guard_witness :
    ((sampleT4.end_tournament "02-01-2025").1 = true ↔
        sampleT4.current_round = sampleT4.number_of_rounds ∧
        strTruthy sampleT4.end_date = false)
  ∧ ((sampleT4.end_tournament "02-01-2025").1 = true →
        (sampleT4.end_tournament "02-01-2025").2.end_date = some "02-01-2025")
  ∧ ((sampleT4.end_tournament "02-01-2025").1 = false →
        (sampleT4.end_tournament "02-01-2025").2 = sampleT4)
  ∧ ((sampleT4.end_tournament "02-01-2025").1 = true →
        ((sampleT4.end_tournament "02-01-2025").2.end_tournament "03-01-2025").1 = false ∧
        ((sampleT4.end_tournament "02-01-2025").2.end_tournament "03-01-2025").2
          = (sampleT4.end_tournament "02-01-2025").2) :=
  end_tournament_closure_guard "T" "L" "01-01-2025" ""
    [mkSampleP "A" 0, mkSampleP "B" 0, mkSampleP "C" 0, mkSampleP "D" 0]
    sampleT4 Relation.ReflTransGen.refl "02-01-2025" "03-01-2025" (by decide)

/-- C10: whenever at least one round exists, `current_round > 0` and no
end date is set, `finish_round` returns true and stamps the most recent
round's end time with the supplied timestamp — and a repeated call succeeds
again and re-stamps it, with no already-finished guard. -/
theorem finish_round_overwrites_end_time (t : Tournament) (now now2 : String)
    (h1 : t.rounds ≠ []) (h2 : t.current_round ≠ 0)
    (h3 : strTruthy t.end_date = false) :
    (t.finish_round now).1 = true
  ∧ (t.finish_round now).2.rounds.getLast?.map Round.end_time = some (some now)
  ∧ ((t.finish_round now).2.finish_round now2).1 = true
  ∧ ((t.finish_round now).2.finish_round now2).2.rounds.getLast?.map
        Round.end_time = some (some now2) := by
  have hne : ¬(t.rounds = [] ∨ t.current_round = 0) := by
    rintro (hc | hc)
    · exact h1 hc
    · exact h2 hc
  have hb : ¬(strTruthy t.end_date = true) := by simp [h3]
  obtain ⟨r, hr⟩ : ∃ r, t.rounds.getLast? = some r := by
    cases htr : t.rounds.getLast? with
    | none => exact absurd (List.getLast?_eq_none_iff.mp htr) h1
    | some r => exact ⟨r, rfl⟩
  unfold Tournament.finish_round
  rw [if_neg hne, if_neg hb]
  have hne2 : ¬(updateLast (fun r => r.finish now) t.rounds = [] ∨
      t.current_round = 0) := by
    rintro (hc | hc)
    · have := updateLast_length (fun r => r.finish now) t.rounds
      rw [hc] at this
      exact h1 (List.eq_nil_of_length_eq_zero this.symm)
    · exact h2 hc
  refine ⟨rfl, ?_, ?_, ?_⟩
  · rw [updateLast_getLast?, hr]
    rfl
  · simp only []
    rw [if_neg hne2, if_neg hb]
  · simp only []
    rw [if_neg hne2, if_neg hb]
    simp only []
    rw [updateLast_getLast?, updateLast_getLast?, hr]
    rfl

/-- Witness for C10 on the concrete two-player tournament after round 1. -/
theorem finish_round_overwrites_end_time_witness :
    (sampleT2.finish_round "t1").1 = true
  ∧ (sampleT2.finish_round "t1").2.rounds.getLast?.map Round.end_time
        = some (some "t1")
  ∧ ((sampleT2.finish_round "t1").2.finish_round "t2").1 = true
  ∧ ((sampleT2.finish_round "t1").2.finish_round "t2").2.rounds.getLast?.map
        Round.end_time = some (some "t2") :=
  finish_round_overwrites_end_time sampleT2 "t1" "t2"
    (by decide) (by decide) (by decide)

/-! The unordered-pair keys of a generated pairing. -/

/-- The id pair keys of a returned pairing, in order. -/
def pairKeys (pairs : List (Player × Player)) : List (String × String) :=
  pairs.map (fun pq => sortKey pq.1.national_id pq.2.national_id)

/-- Every id mentioned by a returned pairing, with multiplicity. -/
def pairedIds (pairs : List (Player × Player)) : List String :=
  pairs.flatMap (fun pq => [pq.1.national_id, pq.2.national_id])

theorem charListLt_asymm : ∀ {x y : List Char},
    charListLt x y = true → charListLt y x = false
  | [], [], h => by simp [charListLt] at h
  | [], _ :: _, _ => rfl
  | _ :: _, [], h => by simp [charListLt] at h
  | c :: cs, d :: ds, h => by
      by_cases hcd : c.toNat < d.toNat
      · have hdc : ¬ d.toNat < c.toNat := by omega
        simp [charListLt, hdc, hcd]
      · by_cases hdc : d.toNat < c.toNat
        · simp [charListLt, hcd, hdc] at h
        · simp [charListLt, hcd, hdc] at h ⊢
          exact charListLt_asymm h

theorem strLtb_asymm {a b : String} (h : strLtb a b = true) : strLtb b a = false :=
  charListLt_asymm h

theorem sortKey_idem (a b : String) :
    sortKey (sortKey a b).1 (sortKey a b).2 = sortKey a b := by
  unfold sortKey
  by_cases h : strLtb b a = true
  · rw [if_pos h]
    simp [strLtb_asymm h]
  · rw [if_neg h]
    simp only []
    rw [if_neg h]

theorem sortKey_eq_cases {a b c d : String} (h : sortKey a b = sortKey c d) :
    (a = c ∧ b = d) ∨ (a = d ∧ b = c) := by
  unfold sortKey at h
  split_ifs at h <;> injection h with h1 h2 <;>
    first
      | exact Or.inl ⟨h1, h2⟩
      | exact Or.inl ⟨h2, h1⟩
      | exact Or.inr ⟨h1, h2⟩
      | exact Or.inr ⟨h2, h1⟩

theorem r1Loop_keys_nodup (players : List Player) (cap : Nat) :
    ∀ (candidates used : List (String × String)) (pairs : List (Player × Player)),
    (pairKeys pairs).Nodup → (∀ k ∈ pairKeys pairs, k ∈ used) →
    (pairKeys (r1Loop players cap candidates used pairs)).Nodup := by
  intro candidates
  induction candidates with
  | nil => intro used pairs hnd _; exact hnd
  | cons c rest ih =>
      obtain ⟨p1_id, p2_id⟩ := c
      intro used pairs hnd hsub
      simp only [r1Loop]
      split
      · exact hnd
      split
      · rename_i p1 p2 hf1 hf2
        split
        · exact ih used pairs hnd hsub
        · rename_i hnotin
          refine ih _ _ ?_ ?_
          · simp only [pairKeys, List.map_append, List.map_cons, List.map_nil]
            rw [List.nodup_append]
            refine ⟨hnd, List.nodup_singleton _, ?_⟩
            intro k hk hk'
            simp at hk'
            subst hk'
            exact hnotin (hsub _ hk)
          · intro k hk
            simp only [pairKeys, List.map_append, List.map_cons, List.map_nil,
              List.mem_append, List.mem_singleton] at hk
            rcases hk with hk | hk
            · exact List.mem_cons_of_mem _ (hsub _ hk)
            · subst hk; exact List.mem_cons_self _ _
      · exact ih used pairs hnd hsub
      · exact ih used pairs hnd hsub

theorem findAlt_mem {p1 : Player} {used : List (String × String)} :
    ∀ {l : List Player} {a : Player}, findAlt p1 used l = some a → a ∈ l
  | [], _, h => by simp [findAlt] at h
  | [_], _, h => by simp [findAlt] at h
  | x :: y :: rest, a, h => by
      by_cases hk : sortKey p1.national_id x.national_id ∈ used
      · simp only [findAlt, if_pos hk] at h
        exact List.mem_cons_of_mem _ (List.mem_cons_of_mem _ (findAlt_mem h))
      · simp only [findAlt, if_neg hk, Option.some.injEq] at h
        subst h
        exact List.mem_cons_self _ _

theorem r2Loop_mem {used : List (String × String)} :
    ∀ {l : List Player}, ∀ pq ∈ r2Loop used l, pq.1 ∈ l ∧ pq.2 ∈ l
  | [], pq, h => by simp [r2Loop] at h
  | [_], pq, h => by simp [r2Loop] at h
  | p1 :: p2 :: rest, pq, h => by
      by_cases hk : sortKey p1.national_id p2.national_id ∈ used
      · simp only [r2Loop, if_pos hk] at h
        cases hfa : findAlt p1 used rest with
        | none =>
            rw [hfa] at h
            have := r2Loop_mem pq h
            exact ⟨List.mem_cons_of_mem _ (List.mem_cons_of_mem _ this.1),
                   List.mem_cons_of_mem _ (List.mem_cons_of_mem _ this.2)⟩
        | some alt =>
            rw [hfa] at h
            rcases List.mem_cons.mp h with h | h
            · subst h
              exact ⟨List.mem_cons_self _ _,
                List.mem_cons_of_mem _ (List.mem_cons_of_mem _ (findAlt_mem hfa))⟩
            · have := r2Loop_mem pq h
              exact ⟨List.mem_cons_of_mem _ (List.mem_cons_of_mem _ this.1),
                     List.mem_cons_of_mem _ (List.mem_cons_of_mem _ this.2)⟩
      · simp only [r2Loop, if_neg hk] at h
        rcases List.mem_cons.mp h with h | h
        · subst h
          exact ⟨List.mem_cons_self _ _,
            List.mem_cons_of_mem _ (List.mem_cons_self _ _)⟩
        · have := r2Loop_mem pq h
          exact ⟨List.mem_cons_of_mem _ (List.mem_cons_of_mem _ this.1),
                 List.mem_cons_of_mem _ (List.mem_cons_of_mem _ this.2)⟩

/-- A pair headed by a player whose id does not occur in `l` has a key
different from every key produced from pairs drawn from `l`. -/
theorem key_notin_of_head_fresh {p x : Player} {l : List Player}
    {used : List (String × String)}
    (hfresh : p.national_id ∉ l.map Player.national_id) :
    sortKey p.national_id x.national_id ∉ pairKeys (r2Loop used l) := by
  intro hmem
  simp only [pairKeys, List.mem_map] at hmem
  obtain ⟨pq, hpq, hkey⟩ := hmem
  have hm := r2Loop_mem pq hpq
  rcases sortKey_eq_cases hkey.symm with ⟨h1, _⟩ | ⟨h2, _⟩
  · exact hfresh (h1 ▸ List.mem_map_of_mem Player.national_id hm.1)
  · exact hfresh (h2 ▸ List.mem_map_of_mem Player.national_id hm.2)

theorem r2Loop_keys_nodup {used : List (String × String)} :
    ∀ {l : List Player}, (l.map Player.national_id).Nodup →
    (pairKeys (r2Loop used l)).Nodup
  | [], _ => by simp [r2Loop, pairKeys]
  | [_], _ => by simp [r2Loop, pairKeys]
  | p1 :: p2 :: rest, hnd => by
      have hnd1 : p1.national_id ∉ (p2 :: rest).map Player.national_id := by
        simp only [List.map_cons, List.nodup_cons] at hnd
        exact hnd.1
      have hndrest : (rest.map Player.national_id).Nodup := by
        simp only [List.map_cons, List.nodup_cons] at hnd
        exact hnd.2.2
      have hfresh : p1.national_id ∉ rest.map Player.national_id := by
        intro hc
        exact hnd1 (by simpa using Or.inr hc)
      by_cases hk : sortKey p1.national_id p2.national_id ∈ used
      · simp only [r2Loop, if_pos hk]
        cases hfa : findAlt p1 used rest with
        | none => exact r2Loop_keys_nodup hndrest
        | some alt =>
            simp only [pairKeys, List.map_cons, List.nodup_cons]
            exact ⟨key_notin_of_head_fresh hfresh, r2Loop_keys_nodup hndrest⟩
      · simp only [r2Loop, if_neg hk]
        simp only [pairKeys, List.map_cons, List.nodup_cons]
        exact ⟨key_notin_of_head_fresh hfresh, r2Loop_keys_nodup hndrest⟩

/-- Counterexample to C1 as stated: in the round-1 branch on the fresh
4-player tournament, with the shuffle leaving the candidate list in
construction order, the two selected pairs are (A,B) and (A,C) — player A
is double-booked.  The `used_pairs` check of the source only rejects an
exact repeat of a whole pair, not the reuse of one participant. -/
theorem generate_pairs_double_books_counterexample :
    2 ≤ sampleT4.players.length
  ∧ ¬ (pairedIds (sampleT4.generate_pairs sampleT4.all_possible_pairs).1).Nodup := by
  decide

/-- C1 amended: for rosters with pairwise distinct national ids, the
pairs returned by `generate_pairs` are pairwise distinct as unordered id
pairs (no whole pair is emitted twice), in the round-1 branch and in the
rounds-2+ branch alike; a single participant may however appear in more
than one returned pair. -/
theorem generate_pairs_pair_keys_nodup (t : Tournament)
    (shuffled : List (String × String))
    (h : (t.players.map Player.national_id).Nodup) :
    (pairKeys (t.generate_pairs shuffled).1).Nodup := by
  unfold Tournament.generate_pairs
  by_cases hlen : t.players.length < 2
  · rw [if_pos hlen]
    simp [pairKeys]
  rw [if_neg hlen]
  by_cases h0 : t.current_round = 0
  · rw [if_pos h0]
    exact r1Loop_keys_nodup _ _ _ _ _ (by simp [pairKeys]) (by simp [pairKeys])
  · rw [if_neg h0]
    have : ((sortByScoreDesc t.players).map Player.national_id).Nodup :=
      (((sortByScoreDesc_perm t.players).map Player.national_id).nodup_iff).mpr h
    exact r2Loop_keys_nodup this

/-- Witness for the amended C1 on the fresh 4-player tournament. -/
theorem generate_pairs_pair_keys_nodup_witness :
    (pairKeys (sampleT4.generate_pairs sampleT4.all_possible_pairs).1).Nodup :=
  generate_pairs_pair_keys_nodup sampleT4 sampleT4.all_possible_pairs (by decide)

/-- Either branch of the two-string sort. -/
theorem sortKey_cases (a b : String) :
    sortKey a b = (a, b) ∨ sortKey a b = (b, a) := by
  unfold sortKey
  split_ifs
  · exact Or.inr rfl
  · exact Or.inl rfl

/-- A successful roster lookup by id: `next((p for p in self.players if
p.national_id == x), None)` finds a player carrying exactly that id. -/
theorem find?_id_eq {l : List Player} {x : String}
    (hx : x ∈ l.map Player.national_id) :
    ∃ p, l.find? (fun p => p.national_id == x) = some p ∧ p.national_id = x := by
  induction l with
  | nil => simp at hx
  | cons q rest ih =>
      by_cases hq : q.national_id = x
      · exact ⟨q, by simp [List.find?_cons, beq_iff_eq, hq], hq⟩
      · have hx' : x ∈ rest.map Player.national_id := by
          simp only [List.map_cons, List.mem_cons] at hx
          exact hx.resolve_left (fun hc => hq hc.symm)
        obtain ⟨p, hp, hpid⟩ := ih hx'
        exact ⟨p, by simp [List.find?_cons, beq_iff_eq, hq, hp], hpid⟩

/-- Membership in the all-pairs construction: each candidate's components
are roster ids and the candidate is already in sorted-key form. -/
theorem pairsFrom_mem : ∀ {l : List Player} {c : String × String},
    c ∈ pairsFrom l →
    c.1 ∈ l.map Player.national_id ∧ c.2 ∈ l.map Player.national_id ∧
    sortKey c.1 c.2 = c := by
  intro l
  induction l with
  | nil => intro c hc; simp [pairsFrom] at hc
  | cons p rest ih =>
      intro c hc
      simp only [pairsFrom, List.mem_append, List.mem_map] at hc
      rcases hc with ⟨q, hq, hqc⟩ | hc
      · subst hqc
        have h1 : p.national_id ∈ (p :: rest).map Player.national_id := by simp
        have h2 : q.national_id ∈ (p :: rest).map Player.national_id := by
          simp only [List.map_cons, List.mem_cons]
          exact Or.inr (List.mem_map_of_mem _ hq)
        rcases sortKey_cases p.national_id q.national_id with hk | hk <;> rw [hk]
        · exact ⟨h1, h2, by rw [← hk]; exact sortKey_idem _ _⟩
        · exact ⟨h2, h1, by rw [← hk]; exact sortKey_idem _ _⟩
      · obtain ⟨h1, h2, h3⟩ := ih hc
        exact ⟨List.mem_cons_of_mem _ h1, List.mem_cons_of_mem _ h2, h3⟩

/-- With pairwise distinct roster ids the all-pairs candidate list has no
duplicate candidate. -/
theorem pairsFrom_nodup : ∀ {l : List Player},
    (l.map Player.national_id).Nodup → (pairsFrom l).Nodup := by
  intro l
  induction l with
  | nil => intro _; simp [pairsFrom]
  | cons p rest ih =>
      intro hnd
      have hfresh : p.national_id ∉ rest.map Player.national_id := by
        simp only [List.map_cons, List.nodup_cons] at hnd
        exact hnd.1
      have hndrest : (rest.map Player.national_id).Nodup := by
        simp only [List.map_cons, List.nodup_cons] at hnd
        exact hnd.2
      simp only [pairsFrom]
      rw [List.nodup_append]
      refine ⟨?_, ih hndrest, ?_⟩
      · have : rest.map (fun q => sortKey p.national_id q.national_id)
            = (rest.map Player.national_id).map
                (fun i => sortKey p.national_id i) := by
          rw [List.map_map]
          rfl
        rw [this]
        refine List.Nodup.map_on ?_ hndrest
        intro i hi j hj hk
        rcases sortKey_eq_cases hk with ⟨_, h2⟩ | ⟨h1, h2⟩
        · exact h2
        · exact absurd (h1 ▸ hj) hfresh
      · intro k hk hk'
        simp only [List.mem_map] at hk
        obtain ⟨q, hq, hqk⟩ := hk
        obtain ⟨h1, h2, _⟩ := pairsFrom_mem hk'
        rcases sortKey_cases p.national_id q.national_id with hc | hc <;>
          rw [hc] at hqk <;> subst hqk
        · exact hfresh h1
        · exact hfresh h2

/-- Length of the round-1 selection when every candidate resolves in the
roster, is in sorted-key form, is fresh for `used`, and the candidates are
pairwise distinct: the loop takes candidates until the cap is hit. -/
theorem r1Loop_length_of_ok (players : List Player) (cap : Nat) :
    ∀ (candidates used : List (String × String))
      (pairs : List (Player × Player)),
    (∀ c ∈ candidates, ∃ p1 p2,
        players.find? (fun p => p.national_id == c.1) = some p1 ∧
        players.find? (fun p => p.national_id == c.2) = some p2 ∧
        sortKey p1.national_id p2.national_id = c) →
    candidates.Nodup →
    (∀ c ∈ candidates, c ∉ used) →
    pairs.length ≤ cap →
    (r1Loop players cap candidates used pairs).length
      = min cap (pairs.length + candidates.length) := by
  intro candidates
  induction candidates with
  | nil =>
      intro used pairs _ _ _ hle
      simp only [r1Loop, List.length_nil]
      omega
  | cons c rest ih =>
      intro used pairs hok hnd hfresh hle
      obtain ⟨c1, c2⟩ := c
      simp only [r1Loop]
      by_cases hcap : cap ≤ pairs.length
      · rw [if_pos hcap]
        simp only [List.length_cons]
        omega
      · rw [if_neg hcap]
        obtain ⟨p1, p2, hf1, hf2, hkey⟩ := hok _ (List.mem_cons_self _ _)
        rw [hf1, hf2]
        simp only []
        have hkey' : sortKey p1.national_id p2.national_id ∉ used := by
          rw [hkey]
          exact hfresh _ (List.mem_cons_self _ _)
        rw [if_neg hkey']
        have hrest := ih (sortKey p1.national_id p2.national_id :: used)
          (pairs ++ [(p1, p2)])
          (fun c hc => hok c (List.mem_cons_of_mem _ hc))
          (List.Nodup.of_cons hnd)
          (by
            intro c hc hmem
            rcases List.mem_cons.mp hmem with hc' | hc'
            · rw [hkey] at hc'
              subst hc'
              exact (List.nodup_cons.mp hnd).1 hc
            · exact hfresh _ (List.mem_cons_of_mem _ hc) hc')
          (by simp; omega)
        rw [hrest]
        simp only [List.length_append, List.length_cons, List.length_nil]
        omega

/-- Counterexample to C5 as stated: on a fresh 5-player roster with
distinct ids and no prior rounds, `generate_pairs` (here with the shuffle
leaving the candidate order unchanged) returns 3 pairs, not 2 — the cap is
`(5+1)//2 = 3` and overlapping pairs are not rejected. -/
theorem five_players_two_pairs_counterexample :
    sampleT5.players.length = 5
  ∧ (sampleT5.players.map Player.national_id).Nodup
  ∧ sampleT5.current_round = 0
  ∧ sampleT5.rounds = []
  ∧ ((sampleT5.generate_pairs sampleT5.all_possible_pairs).1).length = 3
  ∧ ((sampleT5.generate_pairs sampleT5.all_possible_pairs).1).length ≠ 2 := by
  decide

/-- C5 amended: for every roster of exactly 5 participants with
distinct national ids, no prior rounds, the candidate list as built by
`add_players_from_database`, and any shuffle of it, `generate_pairs`
returns exactly 3 pairs (`(5+1)//2`); since overlapping pairs are
accepted, the pairs need not be disjoint, so between 4 and 5 distinct
participants... the count of pairs is 3, not 2. -/
theorem generate_pairs_five_players_three_pairs (t : Tournament)
    (shuffled : List (String × String))
    (h5 : t.players.length = 5)
    (hnd : (t.players.map Player.national_id).Nodup)
    (h0 : t.current_round = 0)
    (hap : t.all_possible_pairs = pairsFrom t.players)
    (hs : shuffled.Perm t.all_possible_pairs) :
    ((t.generate_pairs shuffled).1).length = 3 := by
  unfold Tournament.generate_pairs
  rw [if_neg (by omega : ¬ t.players.length < 2), if_pos h0]
  simp only []
  rw [hap] at hs
  have hlen : (r1Loop t.players ((t.players.length + 1) / 2) shuffled [] []).length
      = min ((t.players.length + 1) / 2) (0 + shuffled.length) := by
    refine r1Loop_length_of_ok _ _ _ _ _ ?_ ?_ ?_ ?_
    · intro c hc
      have hc' : c ∈ pairsFrom t.players := hs.mem_iff.mp hc
      obtain ⟨h1, h2, h3⟩ := pairsFrom_mem hc'
      obtain ⟨p1, hp1, hp1id⟩ := find?_id_eq h1
      obtain ⟨p2, hp2, hp2id⟩ := find?_id_eq h2
      exact ⟨p1, p2, hp1, hp2, by rw [hp1id, hp2id, h3]⟩
    · exact hs.nodup_iff.mpr (pairsFrom_nodup hnd)
    · simp
    · simp
  rw [hlen, hs.length_eq]
  obtain ⟨p, rest, hp⟩ : ∃ p rest, t.players = p :: rest := by
    cases hpl : t.players with
    | nil => rw [hpl] at h5; simp at h5
    | cons p rest => exact ⟨p, rest, rfl⟩
  have hlow : rest.length + (pairsFrom rest).length = (pairsFrom t.players).length := by
    rw [hp]
    simp [pairsFrom]
  have hrlen : rest.length = 4 := by
    rw [hp] at h5
    simpa using h5
  omega

/-- Witness for the amended C5 on the concrete fresh 5-player tournament. -/
theorem generate_pairs_five_players_three_pairs_witness :
    ((sampleT5.generate_pairs sampleT5.all_possible_pairs).1).length = 3 :=
  generate_pairs_five_players_three_pairs sampleT5 sampleT5.all_possible_pairs
    (by decide) (by decide) (by decide) (by decide) (List.Perm.refl _)

/-- In the round-1 branch `generate_pairs` leaves the tournament untouched. -/
theorem generate_pairs_r0_id (t : Tournament) (s : List (String × String))
    (h0 : t.current_round = 0) : (t.generate_pairs s).2 = t := by
  unfold Tournament.generate_pairs
  by_cases hlen : t.players.length < 2
  · rw [if_pos hlen]
  · rw [if_neg hlen, if_pos h0]

/-- Counterexample to C4 as stated: on `sampleT2` (roster not in
descending-score order, the only possible pair already played),
`start_round` fails, yet the roster order has changed — the rounds-2+
branch of `generate_pairs` sorted `players` in place before the
empty-pairs exit. -/
theorem start_round_failure_resorts_roster_counterexample :
    (sampleT2.start_round [] (fun _ => 0) "t0").1 = false
  ∧ (sampleT2.start_round [] (fun _ => 0) "t0").2.players ≠ sampleT2.players := by
  decide

/-- C4 amended: whenever `start_round` returns false, no round is
appended, `current_round` and `end_date` are untouched, and the roster
keeps exactly its members — but only as a multiset: in the rounds-2+
branch the roster may have been re-sorted by descending score before the
failure exit.  When `current_round = 0` (round-1 branch) the state is
completely unchanged. -/
theorem start_round_failure_state_effects (t : Tournament)
    (shuffled : List (String × String)) (whites : Nat → Nat) (now : String)
    (h : (t.start_round shuffled whites now).1 = false) :
    (t.start_round shuffled whites now).2.rounds = t.rounds
  ∧ (t.start_round shuffled whites now).2.current_round = t.current_round
  ∧ (t.start_round shuffled whites now).2.end_date = t.end_date
  ∧ (t.start_round shuffled whites now).2.players.Perm t.players
  ∧ (t.current_round = 0 → (t.start_round shuffled whites now).2 = t) := by
  unfold Tournament.start_round at h ⊢
  by_cases hg1 : t.number_of_rounds ≤ t.current_round
  · rw [if_pos hg1]
    exact ⟨rfl, rfl, rfl, List.Perm.refl _, fun _ => rfl⟩
  rw [if_neg hg1] at h ⊢
  by_cases hg2 : strTruthy t.end_date = true
  · rw [if_pos hg2]
    exact ⟨rfl, rfl, rfl, List.Perm.refl _, fun _ => rfl⟩
  rw [if_neg hg2] at h ⊢
  by_cases hg3 : (t.generate_pairs shuffled).1 = []
  · rw [if_pos hg3]
    have hfields : (t.generate_pairs shuffled).2.rounds = t.rounds ∧
        (t.generate_pairs shuffled).2.current_round = t.current_round ∧
        (t.generate_pairs shuffled).2.end_date = t.end_date := by
      rcases generate_pairs_snd t shuffled with hgp | hgp <;> rw [hgp] <;>
        exact ⟨rfl, rfl, rfl⟩
    exact ⟨hfields.1, hfields.2.1, hfields.2.2,
      generate_pairs_snd_players_perm t shuffled,
      fun h0 => generate_pairs_r0_id t shuffled h0⟩
  · rw [if_neg hg3] at h
    exact absurd h (by simp)

/-- Witness for the amended C4 on the concrete failing `start_round`. -/
theorem start_round_failure_state_effects_witness :
    (sampleT2.start_round [] (fun _ => 0) "t0").2.rounds = sampleT2.rounds
  ∧ (sampleT2.start_round [] (fun _ => 0) "t0").2.current_round
        = sampleT2.current_round
  ∧ (sampleT2.start_round [] (fun _ => 0) "t0").2.end_date = sampleT2.end_date
  ∧ (sampleT2.start_round [] (fun _ => 0) "t0").2.players.Perm sampleT2.players
  ∧ (sampleT2.current_round = 0 →
        (sampleT2.start_round [] (fun _ => 0) "t0").2 = sampleT2) :=
  start_round_failure_state_effects sampleT2 [] (fun _ => 0) "t0" (by decide)

/-! C6: rounds-2+ repeat avoidance in the 4-player scenario. -/

/-- C6: in a 4-participant tournament with pairwise distinct ids whose
round 1 paired (A,B) and (C,D), when the round-2 score-sorted order lines
up as A,B,C,D (so the sequential pairing would repeat (A,B)),
`generate_pairs` substitutes an alternate opponent from the remaining pool
for A: the returned pairing opens with (A,C), whose key is not among the
used pairs. -/
theorem round_two_repeat_substitution (t : Tournament)
    (shuffled : List (String × String))
    (a b c d : Player) (w1 w2 : Nat) (r : Round)
    (hab : a.national_id ≠ b.national_id)
    (hac : a.national_id ≠ c.national_id)
    (had : a.national_id ≠ d.national_id)
    (hbc : b.national_id ≠ c.national_id)
    (hcd : c.national_id ≠ d.national_id)
    (hsort : sortByScoreDesc t.players = [a, b, c, d])
    (hrounds : t.rounds = [r])
    (hm : r.matchList = [Match.mkNew a b w1, Match.mkNew c d w2])
    (hcr : t.current_round ≠ 0) :
    (t.generate_pairs shuffled).1 = [(a, c)]
  ∧ sortKey a.national_id c.national_id ∉ usedPairsOf t.rounds := by
  have hlen : t.players.length = 4 := by
    have := (sortByScoreDesc_perm t.players).length_eq
    rw [hsort] at this
    simpa using this.symm
  have hused : usedPairsOf t.rounds
      = [sortKey a.national_id b.national_id,
         sortKey c.national_id d.national_id] := by
    rw [hrounds]
    simp [usedPairsOf, hm, matchKey, Match.mkNew]
  have hne1 : sortKey a.national_id c.national_id
      ≠ sortKey a.national_id b.national_id := by
    intro h
    rcases sortKey_eq_cases h with ⟨_, h2⟩ | ⟨h1, _⟩
    · exact hbc h2.symm
    · exact hab h1
  have hne2 : sortKey a.national_id c.national_id
      ≠ sortKey c.national_id d.national_id := by
    intro h
    rcases sortKey_eq_cases h with ⟨h1, _⟩ | ⟨h1, _⟩
    · exact hac h1
    · exact had h1
  have hkab_mem : sortKey a.national_id b.national_id ∈
      [sortKey a.national_id b.national_id,
       sortKey c.national_id d.national_id] := List.mem_cons_self _ _
  have hkcd_mem : sortKey c.national_id d.national_id ∈
      [sortKey a.national_id b.national_id,
       sortKey c.national_id d.national_id] := by simp
  have hkac_notmem : sortKey a.national_id c.national_id ∉
      [sortKey a.national_id b.national_id,
       sortKey c.national_id d.national_id] := by
    simp [hne1, hne2]
  constructor
  · unfold Tournament.generate_pairs
    rw [if_neg (by omega : ¬ t.players.length < 2), if_neg hcr]
    simp only []
    rw [hsort, hused]
    simp [r2Loop, findAlt, hkab_mem, hkcd_mem, hkac_notmem]
  · rw [hused]
    exact hkac_notmem

/-- Round 1 of the C6 witness tournament: (A,B) and (C,D) played. -/
def sampleR6 : Round :=
  { name := "Round 1",
    matchList := [Match.mkNew (mkSampleP "A" 3) (mkSampleP "B" 2) 0,
                  Match.mkNew (mkSampleP "C" 1) (mkSampleP "D" 0) 1],
    start_time := "01-01-2025 10:00:00", end_time := none }

/-- C6 witness tournament: 4 players with strictly decreasing scores after
round 1, so the round-2 sort keeps the order A,B,C,D. -/
def sampleT6 : Tournament :=
  { Tournament.mkNew "T" "L" "01-01-2025" "" with
    players := [mkSampleP "A" 3, mkSampleP "B" 2, mkSampleP "C" 1, mkSampleP "D" 0],
    rounds := [sampleR6],
    current_round := 1 }

/-- Witness for C6 on the concrete 4-player scenario. -/
theorem round_two_repeat_substitution_witness :
    (sampleT6.generate_pairs []).1 = [(mkSampleP "A" 3, mkSampleP "C" 1)]
  ∧ sortKey (mkSampleP "A" 3).national_id (mkSampleP "C" 1).national_id
      ∉ usedPairsOf sampleT6.rounds :=
  round_two_repeat_substitution sampleT6 []
    (mkSampleP "A" 3) (mkSampleP "B" 2) (mkSampleP "C" 1) (mkSampleP "D" 0)
    0 1 sampleR6
    (by decide) (by decide) (by decide) (by decide) (by decide)
    (by decide) rfl rfl (by decide)

/-! Serialization (`to_dict` / `from_dict` / `Database.load_tournament`),
with the JSON file I/O elided: the serialized object itself is the value
passed around. -/

/-- The serialized shape of a `Player` (model.py lines 64-76). -/
structure PlayerDict where
  firstname : String
  lastname : String
  birthdate : String
  national_id : String
  score : ℚ
deriving Repr, DecidableEq

/-- Serializer `Player.to_dict()`. -/
def Player.to_dict (p : Player) : PlayerDict :=
  ⟨p.firstname, p.lastname, p.birthdate, p.national_id, p.score⟩

/-- Constructor call `Player(**d)` on a complete dictionary. -/
def playerOfDict (d : PlayerDict) : Player :=
  ⟨d.firstname, d.lastname, d.birthdate, d.national_id, d.score⟩

/-- A persisted player object as found inside a stored Match: a JSON
object whose recognized fields are the (optional) `Player` keyword
arguments.  A missing field is `none`.  (Objects with unknown extra keys —
which `Player(**...)` would also reject — are outside the model; no claim
needs them.) -/
structure PartialPlayerDict where
  firstname : Option String
  lastname : Option String
  birthdate : Option String
  national_id : Option String
  score : Option ℚ
deriving Repr, DecidableEq

/-- A persisted player entry inside a Match: either a JSON object or any
non-object value (string, number, ...), which `Match.from_dict` rejects
with `ValueError` (model.py lines 151-162). -/
inductive PlayerEntry
  | obj (d : PartialPlayerDict)
  | nonObj
deriving Repr, DecidableEq

/-- The complete persisted form of a player, as `Match.to_dict` writes it. -/
def PlayerDict.toPartial (d : PlayerDict) : PartialPlayerDict :=
  ⟨some d.firstname, some d.lastname, some d.birthdate, some d.national_id,
   some d.score⟩

/-- The call `Player(**{**player_data, "national_id": national_id})` (model.py
line 159): the three name fields are required keyword arguments (a missing
one raises `TypeError`), `score` defaults to 0, and the id is the override
passed in. -/
def playerOfKwargs (d : PartialPlayerDict) (nid : String) : Except String Player :=
  match d.firstname, d.lastname, d.birthdate with
  | some fn, some ln, some bd => .ok ⟨fn, ln, bd, nid, d.score.getD 0⟩
  | _, _, _ => .error "TypeError: missing required Player argument"

/-- The serialized shape of a `Match` (model.py lines 118-131). -/
structure MatchDict where
  players : List (PlayerEntry × ℚ)
  white_player : Nat
  is_finished : Bool
deriving Repr, DecidableEq

/-- Serializer `Match.to_dict()`: both players as complete objects with their points. -/
def Match.to_dict (m : Match) : MatchDict :=
  ⟨m.players.map (fun ps => (PlayerEntry.obj ps.1.to_dict.toPartial, ps.2)),
   m.white_player, m.is_finished⟩

/-- Lookup `players_by_id.get(national_id)` where `players_by_id` is the Python
dict comprehension over the roster list: on duplicate ids the later entry
wins. -/
def lookupLast (ps : List Player) (nid : String) : Option Player :=
  ps.reverse.find? (fun p => p.national_id == nid)

/-- One iteration of the `for player_data, score in data["players"]` loop
of `Match.from_dict` (model.py lines 151-162): an object entry resolves by
id in the roster, falling back to a best-effort `Player` built from the
partial data (with the id defaulting to "XX00000"); any non-object entry
raises `ValueError`. -/
def entryFromDict (pbi : List Player) : PlayerEntry × ℚ → Except String (Player × ℚ)
  | (PlayerEntry.obj d, score) =>
      match lookupLast pbi (d.national_id.getD "XX00000") with
      | some player => .ok (player, score)
      | none =>
          match playerOfKwargs d (d.national_id.getD "XX00000") with
          | .ok pl => .ok (pl, score)
          | .error e => .error e
  | (PlayerEntry.nonObj, _) => .error "Invalid player data in Match"

/-- Sequencing of a fallible loop body over a list, aborting at the first
exception, as Python's `for` with `raise` does. -/
def exMap {α β : Type} (f : α → Except String β) : List α → Except String (List β)
  | [] => .ok []
  | x :: xs => do
      let y ← f x
      let ys ← exMap f xs
      .ok (y :: ys)

/-- Deserializer `Match.from_dict(data, players_by_id)` (model.py lines 133-163). -/
def Match.from_dict (data : MatchDict) (pbi : List Player) : Except String Match := do
  let ps ← exMap (entryFromDict pbi) data.players
  .ok { players := ps, white_player := data.white_player,
        is_finished := data.is_finished }

/-- The serialized shape of a `Round` (model.py lines 196-207). -/
structure RoundDict where
  name : String
  matchList : List MatchDict
  start_time : String
  end_time : Option String
deriving Repr, DecidableEq

/-- Serializer `Round.to_dict()`. -/
def Round.to_dict (r : Round) : RoundDict :=
  ⟨r.name, r.matchList.map Match.to_dict, r.start_time, r.end_time⟩

/-- Deserializer `Round.from_dict(data, players_by_id)` (model.py lines 209-225). -/
def Round.from_dict (data : RoundDict) (pbi : List Player) : Except String Round := do
  let ms ← exMap (fun md => Match.from_dict md pbi) data.matchList
  .ok { name := data.name, matchList := ms, start_time := data.start_time,
        end_time := data.end_time }

/-- The serialized shape of a `Tournament` (model.py lines 272-288); note
`all_possible_pairs` is not persisted. -/
structure TournamentDict where
  name : String
  location : String
  start_date : String
  end_date : Option String
  number_of_rounds : Nat
  current_round : Nat
  rounds : List RoundDict
  players : List PlayerDict
  description : String
deriving Repr, DecidableEq

/-- Serializer `Tournament.to_dict()`. -/
def Tournament.to_dict (t : Tournament) : TournamentDict :=
  ⟨t.name, t.location, t.start_date, t.end_date, t.number_of_rounds,
   t.current_round, t.rounds.map Round.to_dict, t.players.map Player.to_dict,
   t.description⟩

/-- The reconstruction performed by `Database.load_tournament`
(model.py lines 470-499) once the JSON object `data` has been read: fresh
`Tournament` (so `all_possible_pairs` stays empty), scalar fields copied,
`players_by_id` built from the persisted roster, rounds and roster
rebuilt. -/
def loadTournament (data : TournamentDict) : Except String Tournament := do
  let pbi := data.players.map playerOfDict
  let rounds ← exMap (fun rd => Round.from_dict rd pbi) data.rounds
  .ok { name := data.name, location := data.location,
        start_date := data.start_date, end_date := data.end_date,
        number_of_rounds := data.number_of_rounds,
        current_round := data.current_round, rounds := rounds,
        players := data.players.map playerOfDict,
        description := data.description, all_possible_pairs := [] }

/-- The data of a match that C8 compares across the round-trip: the
finished flag and the two points values, in order. -/
def matchSummary (m : Match) : Bool × List ℚ :=
  (m.is_finished, m.players.map Prod.snd)

/-- The corresponding summary read off a serialized match. -/
def matchDictSummary (md : MatchDict) : Bool × List ℚ :=
  (md.is_finished, md.players.map Prod.snd)

theorem exMap_ok_of_forall {α β γ : Type} (f : α → Except String β)
    (g : β → γ) (h : α → γ) (l : List α)
    (H : ∀ x ∈ l, ∃ y, f x = .ok y ∧ g y = h x) :
    ∃ ys, exMap f l = .ok ys ∧ ys.map g = l.map h := by
  induction l with
  | nil => exact ⟨[], rfl, rfl⟩
  | cons x xs ih =>
      obtain ⟨y, hy, hgy⟩ := H x (List.mem_cons_self _ _)
      obtain ⟨ys, hys, hgys⟩ := ih (fun z hz => H z (List.mem_cons_of_mem _ hz))
      refine ⟨y :: ys, ?_, by simp [hgy, hgys]⟩
      simp only [exMap, hy, hys]
      rfl

theorem entryFromDict_roundtrip (pbi : List Player) (p : Player) (s : ℚ) :
    ∃ y, entryFromDict pbi (PlayerEntry.obj p.to_dict.toPartial, s) = .ok y
      ∧ y.2 = s := by
  simp only [entryFromDict, Player.to_dict, PlayerDict.toPartial, Option.getD_some]
  cases hl : lookupLast pbi p.national_id with
  | some q => exact ⟨(q, s), by simp, rfl⟩
  | none =>
      exact ⟨(⟨p.firstname, p.lastname, p.birthdate, p.national_id, p.score⟩, s),
        by simp [playerOfKwargs], rfl⟩

theorem match_from_dict_roundtrip (pbi : List Player) (m : Match) :
    ∃ m', Match.from_dict m.to_dict pbi = .ok m'
      ∧ matchSummary m' = matchSummary m := by
  obtain ⟨ys, hys, hgys⟩ := exMap_ok_of_forall (entryFromDict pbi)
    Prod.snd Prod.snd
    (m.players.map (fun ps => (PlayerEntry.obj ps.1.to_dict.toPartial, ps.2)))
    (by
      intro x hx
      simp only [List.mem_map] at hx
      obtain ⟨ps, _, hps⟩ := hx
      subst hps
      obtain ⟨y, hy, hy2⟩ := entryFromDict_roundtrip pbi ps.1 ps.2
      exact ⟨y, hy, hy2⟩)
  refine ⟨{ players := ys, white_player := m.to_dict.white_player,
            is_finished := m.to_dict.is_finished }, ?_, ?_⟩
  · simp only [Match.from_dict, Match.to_dict, hys]
    rfl
  · simp only [matchSummary, Match.to_dict]
    rw [hgys]
    simp [List.map_map, Function.comp]

theorem round_from_dict_roundtrip (pbi : List Player) (r : Round) :
    ∃ r', Round.from_dict r.to_dict pbi = .ok r'
      ∧ r'.matchList.map matchSummary = r.matchList.map matchSummary := by
  obtain ⟨ms, hms, hgms⟩ := exMap_ok_of_forall (fun md => Match.from_dict md pbi)
    matchSummary matchDictSummary (r.matchList.map Match.to_dict)
    (by
      intro x hx
      simp only [List.mem_map] at hx
      obtain ⟨m, _, hm⟩ := hx
      subst hm
      obtain ⟨m', hm', hsum⟩ := match_from_dict_roundtrip pbi m
      refine ⟨m', hm', ?_⟩
      rw [hsum]
      simp [matchSummary, matchDictSummary, Match.to_dict, List.map_map,
        Function.comp])
  refine ⟨{ name := r.to_dict.name, matchList := ms,
            start_time := r.to_dict.start_time,
            end_time := r.to_dict.end_time }, ?_, ?_⟩
  · simp only [Round.from_dict, Round.to_dict, hms]
    rfl
  · rw [hgms]
    simp only [Round.to_dict, List.map_map]
    refine List.map_congr_left ?_
    intro m _
    simp [matchSummary, matchDictSummary, Match.to_dict, List.map_map,
      Function.comp]

/-- C8: serializing a tournament with `to_dict` and rebuilding it with
`Database.load_tournament`'s reconstruction yields a tournament with the
same `current_round`, the same finished flag and points for every match of
every round, and the same id and score for every roster participant. -/
theorem tournament_serialization_roundtrip (t : Tournament) :
    ∃ t', loadTournament t.to_dict = .ok t'
      ∧ t'.current_round = t.current_round
      ∧ t'.rounds.map (fun r => r.matchList.map matchSummary)
          = t.rounds.map (fun r => r.matchList.map matchSummary)
      ∧ t'.players.map (fun p => (p.national_id, p.score))
          = t.players.map (fun p => (p.national_id, p.score)) := by
  have hpl : t.to_dict.players.map playerOfDict = t.players := by
    show (t.players.map Player.to_dict).map playerOfDict = t.players
    rw [List.map_map]
    have h1 : t.players.map (playerOfDict ∘ Player.to_dict) = t.players.map id :=
      List.map_congr_left (fun p _ => rfl)
    rw [h1, List.map_id]
  obtain ⟨rs, hrs, hgrs⟩ := exMap_ok_of_forall
    (fun rd => Round.from_dict rd (t.to_dict.players.map playerOfDict))
    (fun r => r.matchList.map matchSummary)
    (fun rd => rd.matchList.map matchDictSummary)
    (t.rounds.map Round.to_dict)
    (by
      intro x hx
      simp only [List.mem_map] at hx
      obtain ⟨r, _, hr⟩ := hx
      subst hr
      obtain ⟨r', hr', hsum⟩ :=
        round_from_dict_roundtrip (t.to_dict.players.map playerOfDict) r
      refine ⟨r', hr', ?_⟩
      show r'.matchList.map matchSummary
        = (Round.to_dict r).matchList.map matchDictSummary
      rw [hsum]
      simp only [Round.to_dict, List.map_map]
      refine List.map_congr_left ?_
      intro m _
      simp [matchSummary, matchDictSummary, Match.to_dict, List.map_map,
        Function.comp])
  refine ⟨{ name := t.to_dict.name, location := t.to_dict.location,
            start_date := t.to_dict.start_date, end_date := t.to_dict.end_date,
            number_of_rounds := t.to_dict.number_of_rounds,
            current_round := t.to_dict.current_round, rounds := rs,
            players := t.to_dict.players.map playerOfDict,
            description := t.to_dict.description,
            all_possible_pairs := [] }, ?_, rfl, ?_, ?_⟩
  · simp only [Tournament.to_dict] at hrs
    simp only [loadTournament, Tournament.to_dict, hrs]
    rfl
  · rw [hgrs]
    simp only [Tournament.to_dict, List.map_map]
    refine List.map_congr_left ?_
    intro r _
    simp only [Function.comp]
    simp only [Round.to_dict, List.map_map]
    refine List.map_congr_left ?_
    intro m _
    simp [matchSummary, matchDictSummary, Match.to_dict, List.map_map,
      Function.comp]
  · rw [hpl]

/-- A persisted match whose player entry is not a JSON object. -/
def badMatchDict : MatchDict := ⟨[(PlayerEntry.nonObj, 0)], 0, false⟩

/-- Counterexample to C9 as stated: a player entry that is not an object
makes `Match.from_dict` raise `ValueError` ("Invalid player data in
Match") instead of constructing a best-effort participant — the fallback
does not cover every shape of malformed player entry. -/
theorem from_dict_nondict_raises_counterexample :
    Match.from_dict badMatchDict [] = .error "Invalid player data in Match" :=
  rfl

/-- C9 amended: for a persisted player entry that is a JSON object
carrying the three required name fields, whose id (defaulting to
"XX00000" when the field is absent) resolves to no known participant,
`Match.from_dict` does not fail: it fabricates a best-effort `Player` from
the partial data (score defaulting to 0) and returns the reconstructed
match.  Entries that are not objects instead raise `ValueError` (see the
counterexample), and object entries missing a required name field raise
`TypeError`. -/
theorem from_dict_unresolved_id_fallback
    (fn ln bd : String) (nid : Option String) (sc : Option ℚ) (score : ℚ)
    (wp : Nat) (fin : Bool) (pbi : List Player)
    (hl : lookupLast pbi (nid.getD "XX00000") = none) :
    Match.from_dict
        ⟨[(PlayerEntry.obj ⟨some fn, some ln, some bd, nid, sc⟩, score)], wp, fin⟩
        pbi
      = .ok ⟨[(⟨fn, ln, bd, nid.getD "XX00000", sc.getD 0⟩, score)], wp, fin⟩ := by
  simp only [Match.from_dict, exMap, entryFromDict, hl, playerOfKwargs]
  rfl

/-- Witness for the amended C9: an unknown id (empty roster) with complete
name data is fabricated rather than rejected. -/
theorem from_dict_unresolved_id_fallback_witness :
    Match.from_dict
        ⟨[(PlayerEntry.obj
            ⟨some "Jane", some "Doe", some "01-01-1990", some "ZZ99999", none⟩,
           0)], 0, false⟩
        []
      = .ok ⟨[(⟨"Jane", "Doe", "01-01-1990", "ZZ99999", 0⟩, 0)], 0, false⟩ :=
  from_dict_unresolved_id_fallback "Jane" "Doe" "01-01-1990"
    (some "ZZ99999") none 0 0 false [] rfl
